import Mathlib

/-!
Shallow embedding of the launch-monitor radar and trigger subsystems
(`src/radar.cpp`, `src/trigger.cpp`, `include/radar.hpp`), together with
theorems settling the specification claims about them.

Modelling conventions:
* C++ `float`/`double` arithmetic is modelled over an arbitrary
  `LinearOrderedField α` (instantiated at `ℚ` for concrete evaluation);
  the claims under scrutiny are about the exact-arithmetic dataflow, not
  floating-point rounding.
* The external library calls `cos`, `sqrt` (from `<cmath>`) and
  `fftw_execute` (from fftw3) are abstracted as parameters bundled in
  `SigOps`; every structural theorem is proved for all instantiations,
  hence in particular for the real cosine, square root and DFT.
* `std::chrono::steady_clock` time points are modelled as integers
  (monotonic tick counts).
* The mutex/thread structure is modelled by explicit state passing: the
  shared FFTW buffer is a field of `RadarState`, and `processSamples`
  reports whether its critical section (the region guarded by
  `fftw_mutex`) was entered.
-/

set_option maxRecDepth 4000
set_option maxHeartbeats 1000000

namespace LaunchMonitor

/-- `DEFAULT_SAMPLE_COUNT` from `include/radar.hpp`. -/
def DEFAULT_SAMPLE_COUNT : Nat := 1024

/-- `DEFAULT_SAMPLE_FREQ` from `include/radar.hpp`. -/
def DEFAULT_SAMPLE_FREQ : Nat := 10000

/-- `RadarManager::SPEED_OF_LIGHT = 299792458.0` from `include/radar.hpp`. -/
def SPEED_OF_LIGHT (α : Type*) [LinearOrderedField α] : α := 299792458

/-- `RadarManager::RADAR_FREQ = 10.525e9` from `include/radar.hpp`. -/
def RADAR_FREQ (α : Type*) [LinearOrderedField α] : α := 10525000000

/-- The m/s → mph factor `2.23694` used in `radar.cpp`. -/
def MPS_TO_MPH (α : Type*) [LinearOrderedField α] : α := 223694 / 100000

/-- `RadarManager::frequencyToSpeed` from `src/radar.cpp`:
`(SPEED_OF_LIGHT * frequency) / (2.0 * RADAR_FREQ)`. -/
def frequencyToSpeed {α : Type*} [LinearOrderedField α] (frequency : α) : α :=
  (SPEED_OF_LIGHT α * frequency) / (2 * RADAR_FREQ α)

/-- The speed → Doppler-frequency law inlined in
`RadarManager::startDebugMeasurement` (`src/radar.cpp`):
`dopplerFreq = (2.0f * speedMPS * RADAR_FREQ) / SPEED_OF_LIGHT`. -/
def speedToFrequency {α : Type*} [LinearOrderedField α] (v : α) : α :=
  (2 * v * RADAR_FREQ α) / SPEED_OF_LIGHT α

/-! ## Trigger state machine (`src/trigger.cpp`) -/

/-- `TriggerManager::TriggerState` from `include/trigger.hpp`. -/
inductive TriggerState where
  | IDLE
  | TRIGGERED
  | COOLDOWN
deriving DecidableEq, Repr

/-- `TriggerManager::cooldownPeriod` = 500 ms (`include/trigger.hpp`). -/
def cooldownPeriod : Int := 500

/-- The mutable fields of `TriggerManager` relevant to `update()`:
the automaton state, the recorded trigger timestamp (monotonic ticks in
ms), and whether a trigger callback is registered. -/
structure TriggerMgr where
  state : TriggerState
  lastTriggerTime : Int
  hasCallback : Bool
deriving DecidableEq, Repr

/-- `TriggerManager::readDigitalPin` from `src/trigger.cpp`.
`lineOk` models `line != nullptr`; `lineValue` models the return of
`gpiod_line_get_value` (negative on failure). The two error branches
(uninitialized line; negative read, which throws and is caught in the
same function) both return `false`. -/
def readDigitalPin (lineOk : Bool) (lineValue : Int) : Bool :=
  if !lineOk then false
  else if lineValue < 0 then false
  else lineValue == 1

/-- Whether `readDigitalPin` takes one of its two error-logging branches
(`Logger::error` on an uninitialized line, or on a failed hardware
read). -/
def readDigitalPinLogsError (lineOk : Bool) (lineValue : Int) : Bool :=
  !lineOk || decide (lineValue < 0)

/-- `TriggerManager::update` from `src/trigger.cpp`. Returns the updated
manager state and the list of timestamps passed to the registered
callback during the call (empty when no callback fires). The sensor read
is `readDigitalPin lineOk lineValue`, exactly as `update()` calls
`readDigitalPin()`. -/
def TriggerMgr.update (m : TriggerMgr) (now : Int) (lineOk : Bool) (lineValue : Int) :
    TriggerMgr × List Int :=
  match m.state with
  | .IDLE =>
      if readDigitalPin lineOk lineValue then
        ({ m with state := .TRIGGERED, lastTriggerTime := now },
         if m.hasCallback then [now] else [])
      else (m, [])
  | .TRIGGERED => ({ m with state := .COOLDOWN }, [])
  | .COOLDOWN =>
      if now - m.lastTriggerTime ≥ cooldownPeriod then
        ({ m with state := .IDLE }, [])
      else (m, [])

/-! ## Claim theorems: Doppler conversion -/

/-- **C7.** `frequencyToSpeed(f)` equals `(c · f) / (2 · f0)` with
`c = 299792458` and `f0 = 10.525e9 = 10525000000`; the conversion is a
pure total function of its argument. -/
theorem frequencyToSpeed_is_doppler_law {α : Type*} [LinearOrderedField α] (f : α) :
    frequencyToSpeed f = (299792458 * f) / (2 * 10525000000) := rfl

/-- **C4.** Converting a speed to a Doppler frequency by the law inlined
in the debug sample generator and back through `frequencyToSpeed` yields
the speed again (exactly, over any linear ordered field, hence in
particular to floating-point tolerance over ℝ). -/
theorem doppler_round_trip {α : Type*} [LinearOrderedField α] (v : α) :
    frequencyToSpeed (speedToFrequency v) = v := by
  unfold frequencyToSpeed speedToFrequency SPEED_OF_LIGHT RADAR_FREQ
  have hc : (299792458 : α) ≠ 0 := by norm_num
  have hf : (10525000000 : α) ≠ 0 := by norm_num
  field_simp
  ring

/-! ## Claim theorems: trigger automaton -/

/-- **C3.** `TriggerManager::update()` implements the cyclic automaton
Idle → Triggered → Cooldown → Idle: in Idle an active read records `now`
as the trigger timestamp, moves to Triggered and fires the registered
callback exactly once with `now` (an inactive read changes nothing); in
Triggered the next update unconditionally moves to Cooldown with no
callback; in Cooldown the state is kept while the elapsed time since the
trigger timestamp is below 500 ms and becomes Idle once it is ≥ 500 ms,
with no callback either way. -/
theorem trigger_update_automaton (m : TriggerMgr) (now : Int) (lineOk : Bool)
    (v : Int) :
    (m.state = .IDLE → readDigitalPin lineOk v = true →
      m.update now lineOk v =
        ({ m with state := .TRIGGERED, lastTriggerTime := now },
         if m.hasCallback then [now] else [])) ∧
    (m.state = .IDLE → readDigitalPin lineOk v = false →
      m.update now lineOk v = (m, [])) ∧
    (m.state = .TRIGGERED →
      m.update now lineOk v = ({ m with state := .COOLDOWN }, [])) ∧
    (m.state = .COOLDOWN → now - m.lastTriggerTime < 500 →
      m.update now lineOk v = (m, [])) ∧
    (m.state = .COOLDOWN → now - m.lastTriggerTime ≥ 500 →
      m.update now lineOk v = ({ m with state := .IDLE }, [])) := by
  obtain ⟨s, t, c⟩ := m
  refine ⟨?_, ?_, ?_, ?_, ?_⟩ <;> intro hs
  · intro hr
    simp only at hs
    subst hs
    simp [TriggerMgr.update, hr]
  · intro hr
    simp only at hs
    subst hs
    simp [TriggerMgr.update, hr]
  · simp only at hs
    subst hs
    simp [TriggerMgr.update]
  · intro hlt
    simp only at hs
    subst hs
    have hlt' : now - t < 500 := hlt
    simp [TriggerMgr.update, cooldownPeriod, not_le.mpr hlt']
  · intro hge
    simp only at hs
    subst hs
    have hge' : now - t ≥ 500 := hge
    simp [TriggerMgr.update, cooldownPeriod, hge']

/-- Witness for C3: the automaton theorem applied at a concrete manager
and time, extracting the Idle-with-active-read transition. -/
theorem trigger_update_automaton_witness :
    (⟨TriggerState.IDLE, 0, true⟩ : TriggerMgr).state = .IDLE ∧
    readDigitalPin true 1 = true ∧
    (⟨TriggerState.IDLE, 0, true⟩ : TriggerMgr).update 42 true 1 =
      (⟨TriggerState.TRIGGERED, 42, true⟩, [42]) := by
  refine ⟨rfl, by decide, ?_⟩
  have h := (trigger_update_automaton ⟨TriggerState.IDLE, 0, true⟩ 42 true 1).1
    rfl (by decide)
  simpa using h

/-- **C9.** On every failed sensor read — an uninitialized GPIO line or a
negative hardware read — `readDigitalPin` returns `false` ("not active")
and takes an error-logging branch; consequently `update()` in Idle with
such a read changes nothing and fires no callback, and `update` is a
total function (no error propagates to its caller). -/
theorem readDigitalPin_failure_inactive (lineOk : Bool) (v : Int)
    (h : lineOk = false ∨ v < 0) :
    readDigitalPin lineOk v = false ∧
    readDigitalPinLogsError lineOk v = true ∧
    ∀ (m : TriggerMgr) (now : Int), m.state = .IDLE →
      m.update now lineOk v = (m, []) := by
  have hpin : readDigitalPin lineOk v = false := by
    rcases h with h | h
    · subst h; simp [readDigitalPin]
    · cases lineOk <;> simp [readDigitalPin, h, not_le.mpr h, le_of_lt h]
  refine ⟨hpin, ?_, ?_⟩
  · rcases h with h | h
    · subst h; simp [readDigitalPinLogsError]
    · simp [readDigitalPinLogsError, h]
  · intro m now hs
    exact (trigger_update_automaton m now lineOk v).2.1 hs hpin

/-- Witness for C9: a failed (negative) hardware read at a concrete
manager state. -/
theorem readDigitalPin_failure_inactive_witness :
    ((false = false ∨ (-1 : Int) < 0) ∧
      readDigitalPin false (-1) = false ∧
      readDigitalPinLogsError false (-1) = true ∧
      (⟨TriggerState.IDLE, 7, true⟩ : TriggerMgr).update 9 false (-1) =
        (⟨TriggerState.IDLE, 7, true⟩, [])) := by
  have h := readDigitalPin_failure_inactive false (-1) (Or.inl rfl)
  exact ⟨Or.inl rfl, h.1, h.2.1, h.2.2 ⟨TriggerState.IDLE, 7, true⟩ 9 rfl⟩

/-! ## Radar measurement pipeline (`src/radar.cpp`) -/

/-- `RadarMeasurement` from `include/radar.hpp`. The `steady_clock`
timestamp is a monotonic integer tick count. -/
structure RadarMeasurement (α : Type*) where
  speedMPS : α
  speedMPH : α
  signalStrength : α
  timestamp : Int
deriving DecidableEq, Repr

/-- The local `Peak` struct of `RadarManager::processSamples`. -/
structure Peak (α : Type*) where
  index : Int
  frequency : α
  magnitude : α
  speed : α
deriving DecidableEq, Repr

/-- The external numeric routines used by `processSamples`, abstracted:
`cosF` for `cos`, `sqrtF` for `sqrt` (both from `<cmath>`), `piV` for
`M_PI`, and `dft` for the forward real-to-complex transform performed by
`fftw_execute` (input buffer ↦ bin index ↦ (real, imaginary)). Every
structural theorem below holds for all instantiations, hence for the
real cosine, square root and DFT in particular. -/
structure SigOps (α : Type*) where
  cosF : α → α
  sqrtF : α → α
  piV : α
  dft : List α → Nat → α × α

/-- The static FFTW resource state of `RadarManager`: whether the
resources are available (`fftw_initialized` together with the non-null
checks on `fftw_in`, `fftw_out`, `fftw_plan_r2c`, which `processSamples`
tests as one conjunction), and the contents of the shared input buffer
`fftw_in`. -/
structure RadarState (α : Type*) where
  fftw_ok : Bool
  fftw_in : List α
deriving DecidableEq, Repr

/-- The DC offset: `std::accumulate(samples.begin(), samples.end(), 0.0)
/ samples.size()` from `processSamples`. -/
def dcMean (α : Type*) [LinearOrderedField α] (samples : List Int) : α :=
  (samples.map (Int.cast : Int → α)).sum / (samples.length : α)

/-- First buffer-filling loop of `processSamples`:
`fftw_in[i] = (double)samples[i] - mean`. -/
def dcRemovedBuffer {α : Type*} [LinearOrderedField α] (samples : List Int) : List α :=
  samples.map (fun s : Int => (s : α) - dcMean α samples)

/-- The Hamming window coefficient
`0.54 - 0.46 * cos(2.0 * M_PI * i / (samples.size() - 1))`. -/
def hammingCoeff {α : Type*} [LinearOrderedField α] (ops : SigOps α) (n i : Nat) : α :=
  54 / 100 - 46 / 100 * ops.cosF (2 * ops.piV * (i : α) / ((n - 1 : Nat) : α))

/-- Second buffer loop of `processSamples`: the in-place multiplication
`fftw_in[i] *= windowCoeff` applied at every index of the DC-removed
buffer. -/
def windowedBuffer {α : Type*} [LinearOrderedField α] (ops : SigOps α)
    (samples : List Int) : List α :=
  (List.range samples.length).map
    (fun i => (dcRemovedBuffer (α := α) samples).getD i 0 * hammingCoeff ops samples.length i)

/-- Magnitude of output bin `i`:
`sqrt(real*real + imag*imag)` over `fftw_out[i]`, where the output
buffer is the transform of `buf`. -/
def binMagnitude {α : Type*} [LinearOrderedField α] (ops : SigOps α) (buf : List α)
    (i : Nat) : α :=
  ops.sqrtF ((ops.dft buf i).1 * (ops.dft buf i).1 + (ops.dft buf i).2 * (ops.dft buf i).2)

/-- The all-zero `Peak`, used only as the (never semantically relevant)
default for reading the last element of a list known to be nonempty. -/
def peakZero {α : Type*} [LinearOrderedField α] : Peak α := ⟨0, 0, 0, 0⟩

/-- Descending-magnitude ordering on peaks, as the comparator
`a.magnitude > b.magnitude` of the `std::sort` call induces it: `a`
may precede `b` iff `a.magnitude ≥ b.magnitude`. -/
def peakGE {α : Type*} [LinearOrderedField α] (a b : Peak α) : Prop :=
  b.magnitude ≤ a.magnitude

instance {α : Type*} [LinearOrderedField α] : DecidableRel (peakGE (α := α)) :=
  fun a b => inferInstanceAs (Decidable (b.magnitude ≤ a.magnitude))

/-- `std::sort(peaks.begin(), peaks.end(), magnitude-descending)`,
modelled by insertion sort with respect to `peakGE` (`std::sort` is
unstable, so any weakly-descending reordering is a faithful model). -/
def sortPeaksDesc {α : Type*} [LinearOrderedField α] (ps : List (Peak α)) : List (Peak α) :=
  List.insertionSort peakGE ps

/-- The admission test of `processSamples`:
`peaks.size() < 5 || magnitude > peaks.back().magnitude` (the `back()`
read is short-circuited away exactly when the size test already
admits). -/
def peakAdmitted {α : Type*} [LinearOrderedField α] (ps : List (Peak α)) (p : Peak α) :
    Bool :=
  ps.length < 5 || decide ((ps.getLastD peakZero).magnitude < p.magnitude)

/-- The body of the peak-tracking branch: push the candidate, re-sort by
magnitude descending, and `pop_back` once if the size exceeds 5. -/
def peakInsert {α : Type*} [LinearOrderedField α] (ps : List (Peak α)) (p : Peak α) :
    List (Peak α) :=
  if peakAdmitted ps p then
    let ps' := sortPeaksDesc (ps ++ [p])
    if 5 < ps'.length then ps'.dropLast else ps'
  else ps

/-- The loop state of the bin scan in `processSamples`: the running
maximum magnitude (initialized `0.0`), its bin index (initialized `0`),
and the retained peak list (initially empty). -/
structure ScanState (α : Type*) where
  maxMagnitude : α
  maxIndex : Nat
  peaks : List (Peak α)
deriving DecidableEq, Repr

/-- Initial scan state: `maxMagnitude = 0.0`, `maxIndex = 0`,
`peaks` empty. -/
def scanInit {α : Type*} [LinearOrderedField α] : ScanState α := ⟨0, 0, []⟩

/-- The candidate `Peak` record built by the admission branch of the
bin-scan loop for bin `i`: `{(int)i, i * freqResolution, magnitude,
frequencyToSpeed(freq) * 2.23694}`. -/
def scanCand {α : Type*} [LinearOrderedField α] (ops : SigOps α) (buf : List α)
    (freqRes : α) (i : Nat) : Peak α :=
  ⟨(i : Int), (i : α) * freqRes, binMagnitude ops buf i,
   frequencyToSpeed ((i : α) * freqRes) * MPS_TO_MPH α⟩

/-- One iteration of the bin-scan loop of `processSamples` at bin `i`:
update the running maximum if `magnitude > maxMagnitude`, then run the
peak-admission branch. -/
def scanStep {α : Type*} [LinearOrderedField α] (ops : SigOps α) (buf : List α)
    (freqRes : α) (s : ScanState α) (i : Nat) : ScanState α :=
  let magnitude := binMagnitude ops buf i
  let s1 := if s.maxMagnitude < magnitude then
              { s with maxMagnitude := magnitude, maxIndex := i }
            else s
  { s1 with peaks := peakInsert s1.peaks (scanCand ops buf freqRes i) }

/-- The bin-scan loop `for (size_t i = 1; i < samples.size() / 2; i++)`
of `processSamples`: a fold of `scanStep` over the indices
`1, …, n/2 − 1`. -/
def binScan {α : Type*} [LinearOrderedField α] (ops : SigOps α) (buf : List α)
    (freqRes : α) (n : Nat) : ScanState α :=
  (List.range' 1 (n / 2 - 1)).foldl (scanStep ops buf freqRes) scanInit

/-- Result of a `processSamples` call: the returned measurement, the
FFTW state after the call (so buffer writes are observable), whether the
`fftw_mutex` critical section was entered, and the diagnostic peak
list. -/
structure ProcResult (α : Type*) where
  meas : RadarMeasurement α
  state : RadarState α
  lockAcquired : Bool
  peaks : List (Peak α)
deriving DecidableEq, Repr

/-- `RadarManager::processSamples` from `src/radar.cpp`, as a total
function (the C++ body raises no exception on any path): timestamp the
result with `now`; short-circuit with a zero measurement on a sample
count different from `DEFAULT_SAMPLE_COUNT` (before taking the lock) or
on unavailable FFTW resources (inside the lock); otherwise remove DC,
apply the Hamming window, transform, scan bins `1 … n/2 − 1` for the
dominant magnitude and the top-5 peak list, and convert the dominant
bin's frequency `maxIndex * (sampleFreq / n)` to a speed. -/
def processSamples {α : Type*} [LinearOrderedField α] (ops : SigOps α)
    (st : RadarState α) (samples : List Int) (sampleFreq : Nat) (now : Int) :
    ProcResult α :=
  if samples.length ≠ DEFAULT_SAMPLE_COUNT then
    ⟨⟨0, 0, 0, now⟩, st, false, []⟩
  else if st.fftw_ok = false then
    ⟨⟨0, 0, 0, now⟩, st, true, []⟩
  else
    let buf := windowedBuffer ops samples
    let freqRes : α := (sampleFreq : α) / (samples.length : α)
    let scan := binScan ops buf freqRes samples.length
    let dominantFreq : α := (scan.maxIndex : α) * freqRes
    let mps := frequencyToSpeed dominantFreq
    ⟨⟨mps, mps * MPS_TO_MPH α, scan.maxMagnitude, now⟩,
     { st with fftw_in := buf }, true, scan.peaks⟩

/-! ## Claim theorems: fallback paths -/

/-- **C2.** On a sample count different from `DEFAULT_SAMPLE_COUNT`,
`processSamples` short-circuits: the measurement has speed 0 in both
units and signal strength 0 (with the capture timestamp still set), the
FFTW state — in particular the shared input buffer — is untouched, and
the critical section is never entered (the function returns before
acquiring the lock). The function is total, so no exception surfaces to
the caller. -/
theorem processSamples_mismatch_short_circuit {α : Type*} [LinearOrderedField α]
    (ops : SigOps α) (st : RadarState α) (samples : List Int) (sampleFreq : Nat)
    (now : Int) (h : samples.length ≠ DEFAULT_SAMPLE_COUNT) :
    processSamples ops st samples sampleFreq now =
      ⟨⟨0, 0, 0, now⟩, st, false, []⟩ := by
  simp [processSamples, h]

/-- Witness for C2: a 3-sample vector (≠ 1024 samples) is rejected
without touching state or lock. -/
theorem processSamples_mismatch_short_circuit_witness :
    ([0, 1, 2] : List Int).length ≠ DEFAULT_SAMPLE_COUNT ∧
    processSamples ⟨id, id, 0, fun _ _ => (0, 0)⟩ ⟨true, []⟩ [0, 1, 2] 10000 77 =
      (⟨⟨0, 0, 0, 77⟩, ⟨true, []⟩, false, []⟩ : ProcResult ℚ) := by
  refine ⟨by decide, ?_⟩
  exact processSamples_mismatch_short_circuit ⟨id, id, 0, fun _ _ => (0, 0)⟩
    ⟨true, []⟩ [0, 1, 2] 10000 77 (by decide)

/-- **C10.** Every measurement returned by `processSamples` — on the
sample-count-mismatch path, on the unavailable-FFTW-resources path, and
on the success path — carries the monotonic timestamp `now` read at the
start of the call; the two fallback paths zero exactly the speed (both
units) and signal-strength fields while leaving the timestamp
populated. -/
theorem processSamples_timestamp_always_set {α : Type*} [LinearOrderedField α]
    (ops : SigOps α) (st : RadarState α) (samples : List Int) (sampleFreq : Nat)
    (now : Int) :
    (processSamples ops st samples sampleFreq now).meas.timestamp = now ∧
    (samples.length ≠ DEFAULT_SAMPLE_COUNT →
      (processSamples ops st samples sampleFreq now).meas = ⟨0, 0, 0, now⟩) ∧
    (st.fftw_ok = false →
      (processSamples ops st samples sampleFreq now).meas = ⟨0, 0, 0, now⟩) := by
  refine ⟨?_, ?_, ?_⟩
  · by_cases h : samples.length = DEFAULT_SAMPLE_COUNT
    · by_cases hok : st.fftw_ok = false
      · simp [processSamples, h, hok]
      · simp [processSamples, h, hok]
    · simp [processSamples, h]
  · intro h
    simp [processSamples, h]
  · intro hok
    by_cases h : samples.length = DEFAULT_SAMPLE_COUNT
    · simp [processSamples, h, hok]
    · simp [processSamples, h]

/-- Witness for C10: concrete evaluation of the timestamp facts on a
mismatched input. -/
theorem processSamples_timestamp_always_set_witness :
    (processSamples (⟨id, id, 0, fun _ _ => (0, 0)⟩ : SigOps ℚ)
        ⟨false, []⟩ [5] 10000 123).meas.timestamp = 123 ∧
    (processSamples (⟨id, id, 0, fun _ _ => (0, 0)⟩ : SigOps ℚ)
        ⟨false, []⟩ [5] 10000 123).meas = ⟨0, 0, 0, 123⟩ := by
  have h := processSamples_timestamp_always_set
    (⟨id, id, 0, fun _ _ => (0, 0)⟩ : SigOps ℚ) ⟨false, []⟩ [5] 10000 123
  exact ⟨h.1, h.2.1 (by decide)⟩

/-! ## Claim theorems: DC removal and Hamming windowing (C5) -/

/-- Reading a map over `List.range` at an in-range index. -/
theorem getD_map_range {β : Type*} (n : Nat) (f : Nat → β) (d : β) (i : Nat)
    (hi : i < n) : ((List.range n).map f).getD i d = f i := by
  rw [List.getD_eq_getElem?_getD, List.getElem?_map, List.getElem?_range hi]
  rfl

/-- Pointwise description of the DC-removal pass. -/
theorem dcRemovedBuffer_getD {α : Type*} [LinearOrderedField α] (samples : List Int)
    (i : Nat) (hi : i < samples.length) :
    (dcRemovedBuffer (α := α) samples).getD i 0 =
      ((samples.getD i 0 : Int) : α) - dcMean α samples := by
  unfold dcRemovedBuffer
  rw [List.getD_eq_getElem?_getD, List.getElem?_map, List.getElem?_eq_getElem hi,
    List.getD_eq_getElem?_getD, List.getElem?_eq_getElem hi]
  rfl

/-- **C5.** For a matching-length sample vector with available transform
resources, the transform input buffer handed to the forward transform
(observable as the state's `fftw_in` after the call) holds, at each
index `i < n`, exactly
`(samples[i] − mean(samples)) · (0.54 − 0.46·cos(2π·i/(n−1)))` with
`n = 1024`: DC removal is applied when copying in and the Hamming window
is then applied in place, in that order. -/
theorem processSamples_buffer_windowed {α : Type*} [LinearOrderedField α]
    (ops : SigOps α) (st : RadarState α) (samples : List Int) (sampleFreq : Nat)
    (now : Int) (i : Nat)
    (hlen : samples.length = DEFAULT_SAMPLE_COUNT) (hok : st.fftw_ok = true)
    (hi : i < samples.length) :
    (processSamples ops st samples sampleFreq now).state.fftw_in.getD i 0 =
      (((samples.getD i 0 : Int) : α) - dcMean α samples) *
        (54 / 100 - 46 / 100 * ops.cosF (2 * ops.piV * (i : α) / (1023 : α))) := by
  have hproc : (processSamples ops st samples sampleFreq now).state.fftw_in =
      windowedBuffer ops samples := by
    simp [processSamples, hlen, hok]
  rw [hproc]
  unfold windowedBuffer
  rw [getD_map_range _ _ _ i hi, dcRemovedBuffer_getD samples i hi]
  unfold hammingCoeff
  rw [hlen]
  norm_num [DEFAULT_SAMPLE_COUNT]

/-- Witness for C5: concrete instantiation at index 0 of a 1024-sample
vector (all samples 7, so the DC-removed value is 0 and the windowed
entry is 0 as well). -/
theorem processSamples_buffer_windowed_witness :
    (List.replicate 1024 (7 : Int)).length = DEFAULT_SAMPLE_COUNT ∧
    (⟨true, []⟩ : RadarState ℚ).fftw_ok = true ∧ (0 : Nat) < (List.replicate 1024 (7 : Int)).length ∧
    (processSamples (⟨id, id, 0, fun _ _ => (0, 0)⟩ : SigOps ℚ) ⟨true, []⟩
        (List.replicate 1024 (7 : Int)) 10000 0).state.fftw_in.getD 0 0 =
      (((List.replicate 1024 (7 : Int)).getD 0 0 : ℚ) - dcMean ℚ (List.replicate 1024 (7 : Int))) *
        (54 / 100 - 46 / 100 * id (2 * 0 * ((0 : Nat) : ℚ) / (1023 : ℚ))) := by
  have hlen : (List.replicate 1024 (7 : Int)).length = DEFAULT_SAMPLE_COUNT := by
    rw [List.length_replicate]; rfl
  refine ⟨hlen, rfl, by rw [List.length_replicate]; norm_num, ?_⟩
  exact processSamples_buffer_windowed (⟨id, id, 0, fun _ _ => (0, 0)⟩ : SigOps ℚ)
    ⟨true, []⟩ (List.replicate 1024 (7 : Int)) 10000 0 0
    hlen rfl (by rw [List.length_replicate]; norm_num)

/-! ## Dominant-bin scan lemmas (C1) -/

theorem scanStep_max_le {α : Type*} [LinearOrderedField α] (ops : SigOps α)
    (buf : List α) (freqRes : α) (s : ScanState α) (i : Nat) :
    s.maxMagnitude ≤ (scanStep ops buf freqRes s i).maxMagnitude := by
  unfold scanStep
  by_cases h : s.maxMagnitude < binMagnitude ops buf i
  · simp [h, le_of_lt h]
  · simp [h]

theorem scanStep_max_ge_here {α : Type*} [LinearOrderedField α] (ops : SigOps α)
    (buf : List α) (freqRes : α) (s : ScanState α) (i : Nat) :
    binMagnitude ops buf i ≤ (scanStep ops buf freqRes s i).maxMagnitude := by
  unfold scanStep
  by_cases h : s.maxMagnitude < binMagnitude ops buf i
  · simp [h]
  · simp [h, le_of_not_lt h]

theorem scanStep_max_cases {α : Type*} [LinearOrderedField α] (ops : SigOps α)
    (buf : List α) (freqRes : α) (s : ScanState α) (i : Nat) :
    ((scanStep ops buf freqRes s i).maxMagnitude = s.maxMagnitude ∧
     (scanStep ops buf freqRes s i).maxIndex = s.maxIndex) ∨
    ((scanStep ops buf freqRes s i).maxIndex = i ∧
     (scanStep ops buf freqRes s i).maxMagnitude = binMagnitude ops buf i) := by
  unfold scanStep
  by_cases h : s.maxMagnitude < binMagnitude ops buf i
  · right; simp [h]
  · left; simp [h]

theorem foldl_scanStep_max_mono {α : Type*} [LinearOrderedField α] (ops : SigOps α)
    (buf : List α) (freqRes : α) (l : List Nat) (s : ScanState α) :
    s.maxMagnitude ≤ (l.foldl (scanStep ops buf freqRes) s).maxMagnitude := by
  induction l generalizing s with
  | nil => simp
  | cons i l ih =>
      exact le_trans (scanStep_max_le ops buf freqRes s i) (ih _)

theorem foldl_scanStep_max_ge {α : Type*} [LinearOrderedField α] (ops : SigOps α)
    (buf : List α) (freqRes : α) (l : List Nat) (s : ScanState α) :
    ∀ i ∈ l, binMagnitude ops buf i ≤ (l.foldl (scanStep ops buf freqRes) s).maxMagnitude := by
  induction l generalizing s with
  | nil => intro i hi; cases hi
  | cons j l ih =>
      intro i hi
      rcases List.mem_cons.mp hi with h | h
      · subst h
        exact le_trans (scanStep_max_ge_here ops buf freqRes s i)
          (foldl_scanStep_max_mono ops buf freqRes l _)
      · exact ih _ i h

theorem foldl_scanStep_max_attained {α : Type*} [LinearOrderedField α] (ops : SigOps α)
    (buf : List α) (freqRes : α) (l : List Nat) (s : ScanState α) :
    ((l.foldl (scanStep ops buf freqRes) s).maxMagnitude = s.maxMagnitude ∧
     (l.foldl (scanStep ops buf freqRes) s).maxIndex = s.maxIndex) ∨
    ((l.foldl (scanStep ops buf freqRes) s).maxIndex ∈ l ∧
     binMagnitude ops buf (l.foldl (scanStep ops buf freqRes) s).maxIndex =
       (l.foldl (scanStep ops buf freqRes) s).maxMagnitude) := by
  induction l generalizing s with
  | nil => left; simp
  | cons i l ih =>
      rcases ih (scanStep ops buf freqRes s i) with ⟨hm, hx⟩ | ⟨hmem, hval⟩
      · rcases scanStep_max_cases ops buf freqRes s i with ⟨hm', hx'⟩ | ⟨hx', hm'⟩
        · left
          exact ⟨by rw [List.foldl_cons, hm, hm'], by rw [List.foldl_cons, hx, hx']⟩
        · right
          refine ⟨?_, ?_⟩
          · rw [List.foldl_cons, hx, hx']; exact List.mem_cons_self i l
          · rw [List.foldl_cons, hx, hx', hm, hm']
      · right
        exact ⟨List.mem_cons_of_mem i hmem, hval⟩

/-- **C1 (amended).** For a matching-length sample vector with available
transform resources, `processSamples` computes a magnitude for every
output bin from bin 1 up to but excluding the Nyquist index `n/2` (both
bin 0 and bin `n/2` itself are skipped); the returned speed is
`frequencyToSpeed(maxIndex · sampleFreq/n)` for the tracked dominant bin
`maxIndex`, the returned mph speed is that speed times `2.23694`, and
the returned signal strength is the dominant magnitude: it bounds the
magnitude of every scanned bin `1 ≤ i < n/2`, and is attained at `maxIndex`
within the scanned range unless no scanned bin had positive magnitude
(in which case `maxIndex = 0` and the strength is `0`). -/
theorem processSamples_dominant_bin {α : Type*} [LinearOrderedField α]
    (ops : SigOps α) (st : RadarState α) (samples : List Int) (sampleFreq : Nat)
    (now : Int) (buf : List α) (freqRes : α) (scan : ScanState α)
    (hlen : samples.length = DEFAULT_SAMPLE_COUNT) (hok : st.fftw_ok = true)
    (hbuf : buf = windowedBuffer ops samples)
    (hfr : freqRes = (sampleFreq : α) / ((DEFAULT_SAMPLE_COUNT : Nat) : α))
    (hscan : scan = binScan ops buf freqRes DEFAULT_SAMPLE_COUNT) :
    (processSamples ops st samples sampleFreq now).meas.speedMPS =
      frequencyToSpeed ((scan.maxIndex : α) * freqRes) ∧
    (processSamples ops st samples sampleFreq now).meas.speedMPH =
      (processSamples ops st samples sampleFreq now).meas.speedMPS * MPS_TO_MPH α ∧
    (processSamples ops st samples sampleFreq now).meas.signalStrength =
      scan.maxMagnitude ∧
    (∀ i, 1 ≤ i → i < DEFAULT_SAMPLE_COUNT / 2 →
      binMagnitude ops buf i ≤ scan.maxMagnitude) ∧
    ((scan.maxIndex = 0 ∧ scan.maxMagnitude = 0) ∨
      (1 ≤ scan.maxIndex ∧ scan.maxIndex < DEFAULT_SAMPLE_COUNT / 2 ∧
        binMagnitude ops buf scan.maxIndex = scan.maxMagnitude)) := by
  subst hbuf hfr hscan
  have hproc : processSamples ops st samples sampleFreq now =
      ⟨⟨frequencyToSpeed (((binScan ops (windowedBuffer ops samples)
            ((sampleFreq : α) / ((DEFAULT_SAMPLE_COUNT : Nat) : α))
            DEFAULT_SAMPLE_COUNT).maxIndex : α) *
            ((sampleFreq : α) / ((DEFAULT_SAMPLE_COUNT : Nat) : α))),
        frequencyToSpeed (((binScan ops (windowedBuffer ops samples)
            ((sampleFreq : α) / ((DEFAULT_SAMPLE_COUNT : Nat) : α))
            DEFAULT_SAMPLE_COUNT).maxIndex : α) *
            ((sampleFreq : α) / ((DEFAULT_SAMPLE_COUNT : Nat) : α))) * MPS_TO_MPH α,
        (binScan ops (windowedBuffer ops samples)
            ((sampleFreq : α) / ((DEFAULT_SAMPLE_COUNT : Nat) : α))
            DEFAULT_SAMPLE_COUNT).maxMagnitude, now⟩,
       { st with fftw_in := windowedBuffer ops samples }, true,
       (binScan ops (windowedBuffer ops samples)
            ((sampleFreq : α) / ((DEFAULT_SAMPLE_COUNT : Nat) : α))
            DEFAULT_SAMPLE_COUNT).peaks⟩ := by
    simp [processSamples, hlen, hok]
  rw [hproc]
  unfold binScan
  refine ⟨rfl, rfl, rfl, ?_, ?_⟩
  · intro i h1 h2
    apply foldl_scanStep_max_ge
    unfold DEFAULT_SAMPLE_COUNT at h2 ⊢
    rw [List.mem_range'_1]
    omega
  · rcases foldl_scanStep_max_attained ops (windowedBuffer ops samples)
        ((sampleFreq : α) / ((DEFAULT_SAMPLE_COUNT : Nat) : α))
        (List.range' 1 (DEFAULT_SAMPLE_COUNT / 2 - 1)) scanInit with ⟨hm, hx⟩ | ⟨hmem, hval⟩
    · left
      exact ⟨hx, hm⟩
    · right
      rw [List.mem_range'_1] at hmem
      unfold DEFAULT_SAMPLE_COUNT at hmem ⊢
      exact ⟨hmem.1, by omega, hval⟩

/-- Concrete oracle for the C1 counterexample and witness: the abstract
transform puts mass 4 at bin 3 and mass 100 at the Nyquist bin 512;
the square-root stand-in is the identity. -/
def ceOps : SigOps ℚ :=
  ⟨fun _ => 0, fun x => x, 0,
   fun _ k => if k = 3 then (4, 0) else if k = 512 then (100, 0) else (0, 0)⟩

/-- 1024 zero samples for the C1 counterexample. -/
def ceSamples : List Int := List.replicate 1024 0

/-- An available-resources FFTW state for the C1 counterexample. -/
def ceState : RadarState ℚ := ⟨true, []⟩

/-- Closed form of a successful `processSamples` call (matching length,
resources available), shared by the concrete-run proofs below. -/
theorem processSamples_success_eq {α : Type*} [LinearOrderedField α] (ops : SigOps α)
    (st : RadarState α) (samples : List Int) (sampleFreq : Nat) (now : Int)
    (hlen : samples.length = DEFAULT_SAMPLE_COUNT) (hok : st.fftw_ok = true) :
    processSamples ops st samples sampleFreq now =
      ⟨⟨frequencyToSpeed (((binScan ops (windowedBuffer ops samples)
            ((sampleFreq : α) / ((DEFAULT_SAMPLE_COUNT : Nat) : α))
            DEFAULT_SAMPLE_COUNT).maxIndex : α) *
            ((sampleFreq : α) / ((DEFAULT_SAMPLE_COUNT : Nat) : α))),
        frequencyToSpeed (((binScan ops (windowedBuffer ops samples)
            ((sampleFreq : α) / ((DEFAULT_SAMPLE_COUNT : Nat) : α))
            DEFAULT_SAMPLE_COUNT).maxIndex : α) *
            ((sampleFreq : α) / ((DEFAULT_SAMPLE_COUNT : Nat) : α))) * MPS_TO_MPH α,
        (binScan ops (windowedBuffer ops samples)
            ((sampleFreq : α) / ((DEFAULT_SAMPLE_COUNT : Nat) : α))
            DEFAULT_SAMPLE_COUNT).maxMagnitude, now⟩,
       ⟨st.fftw_ok, windowedBuffer ops samples⟩, true,
       (binScan ops (windowedBuffer ops samples)
            ((sampleFreq : α) / ((DEFAULT_SAMPLE_COUNT : Nat) : α))
            DEFAULT_SAMPLE_COUNT).peaks⟩ := by
  simp [processSamples, hlen, hok]

/-- Projection of an explicit `ProcResult`, stated generically so that
rewriting with it never forces evaluation of the field terms. -/
theorem ProcResult_mk_meas {α : Type*} (m : RadarMeasurement α) (s : RadarState α)
    (l : Bool) (p : List (Peak α)) : (ProcResult.mk m s l p).meas = m := rfl

/-- Projection of an explicit `RadarMeasurement`, stated generically. -/
theorem RadarMeasurement_mk_strength {α : Type*} (a b c : α) (t : Int) :
    (RadarMeasurement.mk a b c t).signalStrength = c := rfl

/-- The C1 counterexample's magnitudes, in closed form: 16 at bin 3,
10000 at bin 512, 0 elsewhere (shared by the counterexample proof). -/
theorem ceOps_binMagnitude (b : List ℚ) (j : Nat) :
    binMagnitude ceOps b j =
      if j = 3 then 16 else if j = 512 then 10000 else 0 := by
  by_cases h3 : j = 3
  · subst h3; norm_num [binMagnitude, ceOps]
  · by_cases h512 : j = 512
    · subst h512; norm_num [binMagnitude, ceOps, h3]
    · simp [binMagnitude, ceOps, h3, h512]

/-- **C1 counterexample.** The claim as stated — magnitudes considered
for every bin from 1 up to the Nyquist index `n/2 = 512`, "skipping only
bin 0", with the returned strength the maximum over them — is false: on
a run whose transform has magnitude 10000 at the Nyquist bin 512, the
returned signal strength is 16 (the maximum over bins 1…511 only), so
the Nyquist bin's magnitude exceeds the returned dominant strength. -/
theorem processSamples_skips_nyquist_bin :
    binMagnitude ceOps (windowedBuffer ceOps ceSamples) 512 = 10000 ∧
    (processSamples ceOps ceState ceSamples 10000 0).meas.signalStrength = 16 ∧
    ¬ ((10000 : ℚ) ≤ 16) := by
  have hlen : ceSamples.length = DEFAULT_SAMPLE_COUNT := by
    unfold ceSamples; rw [List.length_replicate]; rfl
  refine ⟨by rw [ceOps_binMagnitude]; norm_num, ?_, by norm_num⟩
  rw [processSamples_success_eq ceOps ceState ceSamples 10000 0 hlen rfl,
    ProcResult_mk_meas, RadarMeasurement_mk_strength]
  unfold binScan
  set fr : ℚ := ((10000 : Nat) : ℚ) / ((DEFAULT_SAMPLE_COUNT : Nat) : ℚ) with hfr
  set buf : List ℚ := windowedBuffer ceOps ceSamples with hbufdef
  set l : List Nat := List.range' 1 (DEFAULT_SAMPLE_COUNT / 2 - 1) with hldef
  have h3mem : 3 ∈ l := by
    rw [hldef, List.mem_range'_1]
    unfold DEFAULT_SAMPLE_COUNT
    omega
  have h16 : (16 : ℚ) ≤ (l.foldl (scanStep ceOps buf fr) scanInit).maxMagnitude := by
    have h := foldl_scanStep_max_ge ceOps buf fr l scanInit 3 h3mem
    rwa [ceOps_binMagnitude] at h
  rcases foldl_scanStep_max_attained ceOps buf fr l scanInit with ⟨hm, _⟩ | ⟨hmem, hval⟩
  · exfalso
    rw [hm] at h16
    norm_num [scanInit] at h16
  · set k : Nat := (l.foldl (scanStep ceOps buf fr) scanInit).maxIndex with hk
    rw [hldef, List.mem_range'_1] at hmem
    unfold DEFAULT_SAMPLE_COUNT at hmem
    have hne512 : k ≠ 512 := by omega
    by_cases h3 : k = 3
    · rw [ceOps_binMagnitude, h3] at hval
      simpa using hval.symm
    · exfalso
      rw [ceOps_binMagnitude] at hval
      rw [if_neg h3, if_neg hne512] at hval
      rw [← hval] at h16
      norm_num at h16

/-- Witness for C1 (amended): the hypotheses hold at the concrete run
and the theorem yields the strength-equals-scan-maximum fact there. -/
theorem processSamples_dominant_bin_witness :
    ceSamples.length = DEFAULT_SAMPLE_COUNT ∧ ceState.fftw_ok = true ∧
    (processSamples ceOps ceState ceSamples 10000 0).meas.signalStrength =
      (binScan ceOps (windowedBuffer ceOps ceSamples)
        ((10000 : ℚ) / ((DEFAULT_SAMPLE_COUNT : Nat) : ℚ))
        DEFAULT_SAMPLE_COUNT).maxMagnitude := by
  have hlen : ceSamples.length = DEFAULT_SAMPLE_COUNT := by
    unfold ceSamples; rw [List.length_replicate]; rfl
  refine ⟨hlen, rfl, ?_⟩
  have h := processSamples_dominant_bin ceOps ceState ceSamples 10000 0
    (windowedBuffer ceOps ceSamples)
    ((10000 : ℚ) / ((DEFAULT_SAMPLE_COUNT : Nat) : ℚ))
    (binScan ceOps (windowedBuffer ceOps ceSamples)
      ((10000 : ℚ) / ((DEFAULT_SAMPLE_COUNT : Nat) : ℚ)) DEFAULT_SAMPLE_COUNT)
    hlen rfl rfl (by norm_num) rfl
  exact h.2.2.1

/-! ## Background measurement pipeline (`RadarManager::startMeasurement`, C8) -/

/-- The background thread spawned by `RadarManager::startMeasurement`
(`src/radar.cpp`): the in-progress flag is stored `true`, the thread
reads samples (`acquire` models the outcome of `readSamples`, which may
throw), processes them, and invokes the registered callback (which may
itself throw: `cb` returns `Except`); any `std::exception` escaping the
`try` block is caught and logged, and the flag is stored `false` after
the catch, on every path. The result is the list of measurements the
callback was invoked with and the flag value after completion. -/
def startMeasurementRun {α : Type*} [LinearOrderedField α] (ops : SigOps α)
    (st : RadarState α) (acquire : Except String (List Int)) (sampleFreq : Nat)
    (now : Int) (cb : Option (RadarMeasurement α → Except String Unit)) :
    List (RadarMeasurement α) × Bool :=
  match acquire with
  | .error _ => ([], false)
  | .ok samples =>
      let r := processSamples ops st samples sampleFreq now
      match cb with
      | none => ([], false)
      | some k =>
          match k r.meas with
          | .ok _ => ([r.meas], false)
          | .error _ => ([r.meas], false)

/-- **C8.** Any exception inside the background measurement pipeline is
caught at the pipeline boundary: the run is a total function (nothing
propagates out of the thread), a failed sample acquisition never invokes
the measurement callback, and the in-progress flag is `false` after
every completion path — success, acquisition failure, or a throwing
callback. -/
theorem startMeasurementRun_safe {α : Type*} [LinearOrderedField α] (ops : SigOps α)
    (st : RadarState α) (acquire : Except String (List Int)) (sampleFreq : Nat)
    (now : Int) (cb : Option (RadarMeasurement α → Except String Unit)) :
    (startMeasurementRun ops st acquire sampleFreq now cb).2 = false ∧
    (∀ e, acquire = .error e →
      startMeasurementRun ops st acquire sampleFreq now cb = ([], false)) := by
  constructor
  · cases acquire with
    | error e => rfl
    | ok samples =>
        cases cb with
        | none => rfl
        | some k =>
            rcases hk : k (processSamples ops st samples sampleFreq now).meas with _ | _ <;>
              simp [startMeasurementRun, hk]
  · intro e he
    subst he
    rfl

/-- Witness for C8: with a failing acquisition, the callback never runs
and the flag ends cleared. -/
theorem startMeasurementRun_safe_witness :
    ((Except.error "adc failure" : Except String (List Int)) = .error "adc failure") ∧
    startMeasurementRun (⟨id, id, 0, fun _ _ => (0, 0)⟩ : SigOps ℚ) ⟨true, []⟩
      (.error "adc failure") 10000 5 none = ([], false) := by
  refine ⟨rfl, ?_⟩
  exact (startMeasurementRun_safe (⟨id, id, 0, fun _ _ => (0, 0)⟩ : SigOps ℚ) ⟨true, []⟩
    (.error "adc failure") 10000 5 none).2 "adc failure" rfl

/-! ## Peak-list invariants and exact top-5 (C6) -/

theorem getLastD_cons_cons {β : Type*} (a b : β) (t : List β) (d d' : β) :
    (a :: b :: t).getLastD d = (b :: t).getLastD d' := rfl

theorem getLastD_mem {β : Type*} :
    ∀ (xs : List β) (d : β), xs ≠ [] → xs.getLastD d ∈ xs
  | [], _, h => absurd rfl h
  | [a], _, _ => by simp [List.getLastD]
  | a :: b :: t, d, _ => by
      rw [getLastD_cons_cons a b t d d]
      exact List.mem_cons_of_mem a (getLastD_mem (b :: t) d (by simp))

theorem dropLast_append_getLastD {β : Type*} :
    ∀ (xs : List β) (d : β), xs ≠ [] → xs.dropLast ++ [xs.getLastD d] = xs
  | [], _, h => absurd rfl h
  | [a], _, _ => by simp [List.getLastD]
  | a :: b :: t, d, _ => by
      have ih := dropLast_append_getLastD (b :: t) d (by simp)
      rw [getLastD_cons_cons a b t d d]
      simpa [List.dropLast] using ih

/-- In a `peakGE`-sorted (magnitude-descending) list, the last element's
magnitude is a lower bound for every element's magnitude. -/
theorem sorted_getLastD_min {α : Type*} [LinearOrderedField α] :
    ∀ (ps : List (Peak α)), List.Sorted peakGE ps →
      ∀ p ∈ ps, (ps.getLastD peakZero).magnitude ≤ p.magnitude
  | [], _, _, hp => absurd hp (List.not_mem_nil _)
  | [a], _, p, hp => by
      rcases List.mem_singleton.mp hp with rfl
      simp [List.getLastD]
  | a :: b :: t, h, p, hp => by
      have h1 : ∀ q ∈ b :: t, peakGE a q := (List.sorted_cons.mp h).1
      have h2 : List.Sorted peakGE (b :: t) := (List.sorted_cons.mp h).2
      rw [getLastD_cons_cons a b t peakZero peakZero]
      rcases List.mem_cons.mp hp with rfl | hp'
      · exact le_trans
          (sorted_getLastD_min (b :: t) h2 _ (getLastD_mem (b :: t) peakZero (by simp)))
          (h1 _ (getLastD_mem (b :: t) peakZero (by simp)))
      · exact sorted_getLastD_min (b :: t) h2 p hp'

instance {α : Type*} [LinearOrderedField α] : IsTotal (Peak α) peakGE :=
  ⟨fun a b => le_total b.magnitude a.magnitude⟩

instance {α : Type*} [LinearOrderedField α] : IsTrans (Peak α) peakGE :=
  ⟨fun _ _ _ h1 h2 => le_trans h2 h1⟩

theorem sortPeaksDesc_sorted {α : Type*} [LinearOrderedField α] (ps : List (Peak α)) :
    List.Sorted peakGE (sortPeaksDesc ps) :=
  List.sorted_insertionSort peakGE ps

theorem sortPeaksDesc_perm {α : Type*} [LinearOrderedField α] (ps : List (Peak α)) :
    List.Perm (sortPeaksDesc ps) ps :=
  List.perm_insertionSort peakGE ps

theorem sortPeaksDesc_length {α : Type*} [LinearOrderedField α] (ps : List (Peak α)) :
    (sortPeaksDesc ps).length = ps.length :=
  List.length_insertionSort peakGE ps

theorem sorted_dropLast {α : Type*} [LinearOrderedField α] (ps : List (Peak α))
    (h : List.Sorted peakGE ps) : List.Sorted peakGE ps.dropLast :=
  List.Pairwise.sublist (List.dropLast_sublist ps) h

theorem ms_add_sub_add {γ : Type*} [DecidableEq γ] (a b c : Multiset γ) :
    (a + c) - (b + c) = a - b := by
  ext x
  simp only [Multiset.count_sub, Multiset.count_add]
  omega

theorem ms_sub_sub {γ : Type*} [DecidableEq γ] (a b c : Multiset γ)
    (h₁ : b ≤ a) (h₂ : c ≤ b) : a - (b - c) = a - b + c := by
  have h₁' := Multiset.le_iff_count.mp h₁
  have h₂' := Multiset.le_iff_count.mp h₂
  ext x
  have hx1 := h₁' x
  have hx2 := h₂' x
  simp only [Multiset.count_sub, Multiset.count_add]
  omega

theorem ms_add_sub_of_le {γ : Type*} [DecidableEq γ] (a b c : Multiset γ)
    (h : b ≤ a) : (a + c) - b = (a - b) + c := by
  have h' := Multiset.le_iff_count.mp h
  ext x
  have hx := h' x
  simp only [Multiset.count_sub, Multiset.count_add]
  omega

/-- The streaming top-5 invariant: after processing candidate list `cs`,
the held list `ps` is magnitude-sorted descending, holds `min 5 |cs|`
peaks whose magnitudes form a sub-multiset of the candidates'
magnitudes, and every candidate magnitude not held is ≤ every held
magnitude (so the held magnitudes are exactly the 5 largest, counted
with multiplicity). -/
def Top5Inv {α : Type*} [LinearOrderedField α] (cs ps : List (Peak α)) : Prop :=
  ps.length = min 5 cs.length ∧
  List.Sorted peakGE ps ∧
  ((ps.map Peak.magnitude : List α) : Multiset α) ≤
    ((cs.map Peak.magnitude : List α) : Multiset α) ∧
  ∀ x ∈ ((cs.map Peak.magnitude : List α) : Multiset α) -
      ((ps.map Peak.magnitude : List α) : Multiset α),
    ∀ p ∈ ps, x ≤ p.magnitude

theorem Top5Inv_nil {α : Type*} [LinearOrderedField α] :
    Top5Inv ([] : List (Peak α)) [] := by
  refine ⟨rfl, List.sorted_nil, le_refl _, ?_⟩
  intro x hx
  simp at hx

theorem Top5Inv_insert {α : Type*} [LinearOrderedField α] (cs ps : List (Peak α))
    (c : Peak α) (h : Top5Inv cs ps) : Top5Inv (cs ++ [c]) (peakInsert ps c) := by
  obtain ⟨hlen, hsort, hle, hdrop⟩ := h
  have hseen' : (((cs ++ [c]).map Peak.magnitude : List α) : Multiset α) =
      ((cs.map Peak.magnitude : List α) : Multiset α) + {c.magnitude} := by
    rw [List.map_append, ← Multiset.coe_add]
    simp
  have hlenle : ps.length ≤ 5 := by omega
  by_cases h5 : ps.length < 5
  -- Case A: fewer than 5 peaks held; always admitted, no truncation.
  · have hadm : peakAdmitted ps c = true := by
      simp only [peakAdmitted, Bool.or_eq_true, decide_eq_true_eq]
      exact Or.inl h5
    have hcs : cs.length = ps.length := by omega
    have hcards : Multiset.card ((cs.map Peak.magnitude : List α) : Multiset α) ≤
        Multiset.card ((ps.map Peak.magnitude : List α) : Multiset α) := by
      rw [Multiset.coe_card, Multiset.coe_card, List.length_map, List.length_map, hcs]
    have heq : ((ps.map Peak.magnitude : List α) : Multiset α) =
        ((cs.map Peak.magnitude : List α) : Multiset α) :=
      Multiset.eq_of_le_of_card_le hle hcards
    have hlensort : (sortPeaksDesc (ps ++ [c])).length = ps.length + 1 := by
      rw [sortPeaksDesc_length, List.length_append, List.length_singleton]
    have hins : peakInsert ps c = sortPeaksDesc (ps ++ [c]) := by
      unfold peakInsert
      rw [if_pos hadm, if_neg (by omega)]
    have hpermmag :
        (((sortPeaksDesc (ps ++ [c])).map Peak.magnitude : List α) : Multiset α) =
        ((ps.map Peak.magnitude : List α) : Multiset α) + {c.magnitude} := by
      rw [Multiset.coe_eq_coe.mpr ((sortPeaksDesc_perm (ps ++ [c])).map Peak.magnitude),
        List.map_append, ← Multiset.coe_add]
      simp
    rw [hins]
    refine ⟨?_, sortPeaksDesc_sorted _, ?_, ?_⟩
    · rw [hlensort, List.length_append, List.length_singleton]
      omega
    · rw [hpermmag, hseen']
      exact add_le_add_right hle _
    · intro x hx
      rw [hpermmag, hseen', heq, tsub_self] at hx
      exact absurd hx (Multiset.not_mem_zero x)
  -- ps holds exactly 5 peaks.
  · have hps5 : ps.length = 5 := by omega
    have hcs5 : 5 ≤ cs.length := by omega
    have hne : ps ≠ [] := by
      intro hnil
      rw [hnil] at hps5
      simp at hps5
    have hmmin : ∀ p ∈ ps, (ps.getLastD peakZero).magnitude ≤ p.magnitude :=
      sorted_getLastD_min ps hsort
    have hmmem : ps.getLastD peakZero ∈ ps := getLastD_mem ps peakZero hne
    have hmmagmem : (ps.getLastD peakZero).magnitude ∈
        ((ps.map Peak.magnitude : List α) : Multiset α) :=
      Multiset.mem_coe.mpr (List.mem_map_of_mem Peak.magnitude hmmem)
    by_cases hc : (ps.getLastD peakZero).magnitude < c.magnitude
    -- Case B: full list, candidate beats the weakest: insert and truncate.
    · have hadm : peakAdmitted ps c = true := by
        simp only [peakAdmitted, Bool.or_eq_true, decide_eq_true_eq]
        exact Or.inr hc
      have hlensort : (sortPeaksDesc (ps ++ [c])).length = 6 := by
        rw [sortPeaksDesc_length, List.length_append, List.length_singleton, hps5]
      have hins : peakInsert ps c = (sortPeaksDesc (ps ++ [c])).dropLast := by
        unfold peakInsert
        rw [if_pos hadm, if_pos (by omega)]
      have hs6ne : sortPeaksDesc (ps ++ [c]) ≠ [] := by
        intro hnil
        rw [hnil] at hlensort
        simp at hlensort
      have hdmin : ∀ p ∈ sortPeaksDesc (ps ++ [c]),
          ((sortPeaksDesc (ps ++ [c])).getLastD peakZero).magnitude ≤ p.magnitude :=
        sorted_getLastD_min _ (sortPeaksDesc_sorted _)
      have hmmem6 : ps.getLastD peakZero ∈ sortPeaksDesc (ps ++ [c]) :=
        (sortPeaksDesc_perm (ps ++ [c])).mem_iff.mpr
          (List.mem_append.mpr (Or.inl hmmem))
      have hdmem' : (sortPeaksDesc (ps ++ [c])).getLastD peakZero ∈ ps ++ [c] :=
        (sortPeaksDesc_perm (ps ++ [c])).mem_iff.mp
          (getLastD_mem _ peakZero hs6ne)
      have hdps : (sortPeaksDesc (ps ++ [c])).getLastD peakZero ∈ ps := by
        rcases List.mem_append.mp hdmem' with hin | hin
        · exact hin
        · exfalso
          have hceq : (sortPeaksDesc (ps ++ [c])).getLastD peakZero = c :=
            List.mem_singleton.mp hin
          have h1 : ((sortPeaksDesc (ps ++ [c])).getLastD peakZero).magnitude ≤
              (ps.getLastD peakZero).magnitude := hdmin _ hmmem6
          rw [hceq] at h1
          exact absurd h1 (not_le.mpr hc)
      have hdm : ((sortPeaksDesc (ps ++ [c])).getLastD peakZero).magnitude =
          (ps.getLastD peakZero).magnitude :=
        le_antisymm (hdmin _ hmmem6) (hmmin _ hdps)
      -- magnitudes of the sorted six-element list split as dropLast ++ last
      have hlists : (sortPeaksDesc (ps ++ [c])).dropLast.map Peak.magnitude ++
          [((sortPeaksDesc (ps ++ [c])).getLastD peakZero).magnitude] =
          (sortPeaksDesc (ps ++ [c])).map Peak.magnitude := by
        conv_rhs => rw [← dropLast_append_getLastD (sortPeaksDesc (ps ++ [c])) peakZero hs6ne]
        rw [List.map_append]
        rfl
      have hsplit :
          (((sortPeaksDesc (ps ++ [c])).dropLast.map Peak.magnitude : List α) : Multiset α)
            + {(ps.getLastD peakZero).magnitude} =
          ((ps.map Peak.magnitude : List α) : Multiset α) + {c.magnitude} := by
        rw [← hdm, ← Multiset.coe_singleton, Multiset.coe_add, hlists,
          Multiset.coe_eq_coe.mpr ((sortPeaksDesc_perm (ps ++ [c])).map Peak.magnitude),
          List.map_append, ← Multiset.coe_add]
        simp
      rw [hins]
      refine ⟨?_, sorted_dropLast _ (sortPeaksDesc_sorted _), ?_, ?_⟩
      · rw [List.length_dropLast, hlensort, List.length_append, List.length_singleton]
        omega
      · have step1 :
            (((sortPeaksDesc (ps ++ [c])).dropLast.map Peak.magnitude : List α) : Multiset α)
              ≤ ((ps.map Peak.magnitude : List α) : Multiset α) + {c.magnitude} := by
          rw [← hsplit]
          exact Multiset.le_add_right _ _
        rw [hseen']
        exact le_trans step1 (add_le_add_right hle _)
      · have hheld' :
            (((sortPeaksDesc (ps ++ [c])).dropLast.map Peak.magnitude : List α) : Multiset α) =
            (((ps.map Peak.magnitude : List α) : Multiset α) + {c.magnitude}) -
              {(ps.getLastD peakZero).magnitude} := by
          rw [← hsplit, add_tsub_cancel_right]
        have hsingle_le : ({(ps.getLastD peakZero).magnitude} : Multiset α) ≤
            ((ps.map Peak.magnitude : List α) : Multiset α) + {c.magnitude} :=
          le_trans (Multiset.singleton_le.mpr hmmagmem) (Multiset.le_add_right _ _)
        have hdropped_eq :
            (((cs ++ [c]).map Peak.magnitude : List α) : Multiset α) -
              (((sortPeaksDesc (ps ++ [c])).dropLast.map Peak.magnitude : List α) : Multiset α) =
            (((cs.map Peak.magnitude : List α) : Multiset α) -
              ((ps.map Peak.magnitude : List α) : Multiset α)) +
              {(ps.getLastD peakZero).magnitude} := by
          rw [hseen', hheld',
            ms_sub_sub _ _ _ (add_le_add_right hle _) hsingle_le,
            ms_add_sub_add]
        intro x hx p hp
        have hpge : (ps.getLastD peakZero).magnitude ≤ p.magnitude := by
          have hpmem6 : p ∈ sortPeaksDesc (ps ++ [c]) :=
            (List.dropLast_sublist (sortPeaksDesc (ps ++ [c]))).subset hp
          rw [← hdm]
          exact hdmin p hpmem6
        rw [hdropped_eq] at hx
        rcases Multiset.mem_add.mp hx with hx' | hx'
        · exact le_trans (hdrop x hx' _ hmmem) hpge
        · rw [Multiset.mem_singleton.mp hx']
          exact hpge
    -- Case C: full list, candidate does not beat the weakest: rejected.
    · have hnadm : ¬ (peakAdmitted ps c = true) := by
        simp only [peakAdmitted, Bool.or_eq_true, decide_eq_true_eq]
        rintro (hbad | hbad)
        · exact h5 hbad
        · exact hc hbad
      have hins : peakInsert ps c = ps := by
        unfold peakInsert
        rw [if_neg hnadm]
      rw [hins]
      refine ⟨?_, hsort, ?_, ?_⟩
      · rw [List.length_append, List.length_singleton]
        omega
      · rw [hseen']
        exact le_trans hle (Multiset.le_add_right _ _)
      · intro x hx p hp
        have hdropped_eq :
            (((cs ++ [c]).map Peak.magnitude : List α) : Multiset α) -
              ((ps.map Peak.magnitude : List α) : Multiset α) =
            (((cs.map Peak.magnitude : List α) : Multiset α) -
              ((ps.map Peak.magnitude : List α) : Multiset α)) + {c.magnitude} := by
          rw [hseen', ms_add_sub_of_le _ _ _ hle]
        rw [hdropped_eq] at hx
        rcases Multiset.mem_add.mp hx with hx' | hx'
        · exact hdrop x hx' p hp
        · rw [Multiset.mem_singleton.mp hx']
          exact le_trans (not_lt.mp hc) (hmmin p hp)

theorem Top5Inv_foldl {α : Type*} [LinearOrderedField α] (cs : List (Peak α)) :
    Top5Inv cs (cs.foldl peakInsert []) := by
  induction cs using List.reverseRecOn with
  | nil => exact Top5Inv_nil
  | append_singleton l a ih =>
      rw [List.foldl_append, List.foldl_cons, List.foldl_nil]
      exact Top5Inv_insert l _ a ih

theorem scanStep_peaks {α : Type*} [LinearOrderedField α] (ops : SigOps α)
    (buf : List α) (freqRes : α) (s : ScanState α) (i : Nat) :
    (scanStep ops buf freqRes s i).peaks =
      peakInsert s.peaks (scanCand ops buf freqRes i) := by
  unfold scanStep
  by_cases h : s.maxMagnitude < binMagnitude ops buf i <;> simp [h]

theorem foldl_scanStep_peaks {α : Type*} [LinearOrderedField α] (ops : SigOps α)
    (buf : List α) (freqRes : α) :
    ∀ (l : List Nat) (s : ScanState α),
      (l.foldl (scanStep ops buf freqRes) s).peaks =
        (l.map (scanCand ops buf freqRes)).foldl peakInsert s.peaks := by
  intro l
  induction l with
  | nil => intro s; rfl
  | cons i l ih =>
      intro s
      rw [List.foldl_cons, List.map_cons, List.foldl_cons, ih, scanStep_peaks]

theorem scanCand_magnitudes {α : Type*} [LinearOrderedField α] (ops : SigOps α)
    (buf : List α) (freqRes : α) (l : List Nat) :
    (l.map (scanCand ops buf freqRes)).map Peak.magnitude =
      l.map (binMagnitude ops buf) := by
  rw [List.map_map]
  rfl

/-- **C6 (amended).** Throughout the bin scan (after any prefix `pre` of
the scanned index list), the peak list holds at most 5 peaks — exactly
`min 5 |pre|` — and is sorted by magnitude descending; a candidate is
admitted exactly when fewer than 5 peaks are held or its magnitude
exceeds the weakest (last) held peak's, after which the list is
re-sorted descending and truncated to 5. Contrary to the claim's
closing characterization, this maintains an exact top-5, not merely an
approximate one: the held magnitudes form a sub-multiset of the scanned
magnitudes and every scanned magnitude not held is ≤ every held one. -/
theorem peak_scan_top5 {α : Type*} [LinearOrderedField α] (ops : SigOps α)
    (buf : List α) (freqRes : α) (pre suf : List Nat)
    (hpre : List.range' 1 (DEFAULT_SAMPLE_COUNT / 2 - 1) = pre ++ suf) :
    (∀ (ps : List (Peak α)) (p : Peak α), peakAdmitted ps p = true ↔
      (ps.length < 5 ∨ (ps.getLastD peakZero).magnitude < p.magnitude)) ∧
    (pre.foldl (scanStep ops buf freqRes) scanInit).peaks.length ≤ 5 ∧
    List.Sorted peakGE (pre.foldl (scanStep ops buf freqRes) scanInit).peaks ∧
    (pre.foldl (scanStep ops buf freqRes) scanInit).peaks.length = min 5 pre.length ∧
    ((((pre.foldl (scanStep ops buf freqRes) scanInit).peaks.map Peak.magnitude : List α) :
        Multiset α) ≤
      ((pre.map (binMagnitude ops buf) : List α) : Multiset α)) ∧
    ∀ x ∈ ((pre.map (binMagnitude ops buf) : List α) : Multiset α) -
        (((pre.foldl (scanStep ops buf freqRes) scanInit).peaks.map Peak.magnitude : List α) :
          Multiset α),
      ∀ p ∈ (pre.foldl (scanStep ops buf freqRes) scanInit).peaks, x ≤ p.magnitude := by
  have hbridge : (pre.foldl (scanStep ops buf freqRes) scanInit).peaks =
      (pre.map (scanCand ops buf freqRes)).foldl peakInsert [] := by
    rw [foldl_scanStep_peaks]
    rfl
  obtain ⟨hl, hs, hle, hd⟩ := Top5Inv_foldl (pre.map (scanCand ops buf freqRes))
  refine ⟨?_, ?_, ?_, ?_, ?_, ?_⟩
  · intro ps p
    simp only [peakAdmitted, Bool.or_eq_true, decide_eq_true_eq]
  · rw [hbridge, hl, List.length_map]
    omega
  · rw [hbridge]
    exact hs
  · rw [hbridge, hl, List.length_map]
  · rw [hbridge, ← scanCand_magnitudes ops buf freqRes pre]
    exact hle
  · rw [hbridge, ← scanCand_magnitudes ops buf freqRes pre]
    exact hd

/-- **C6 counterexample.** The claim's closing clause — that the scheme
is "an approximate top-5 …, not an exact top-5" — is false: there is no
run of the peak scan, over any transform oracle, buffer and prefix of
scanned bins, in which some discarded candidate magnitude exceeds a
retained peak's magnitude; the retained list is always an exact top-5
of the scanned magnitudes (counted with multiplicity). -/
theorem peak_scan_never_inexact :
    ¬ ∃ (ops : SigOps ℚ) (buf : List ℚ) (freqRes : ℚ) (pre : List Nat) (x : ℚ)
        (p : Peak ℚ),
      x ∈ ((pre.map (binMagnitude ops buf) : List ℚ) : Multiset ℚ) -
          (((pre.foldl (scanStep ops buf freqRes) scanInit).peaks.map Peak.magnitude :
              List ℚ) : Multiset ℚ) ∧
      p ∈ (pre.foldl (scanStep ops buf freqRes) scanInit).peaks ∧
      p.magnitude < x := by
  rintro ⟨ops, buf, freqRes, pre, x, p, hx, hp, hlt⟩
  have hbridge : (pre.foldl (scanStep ops buf freqRes) scanInit).peaks =
      (pre.map (scanCand ops buf freqRes)).foldl peakInsert [] := by
    rw [foldl_scanStep_peaks]
    rfl
  obtain ⟨hl, hs, hle, hd⟩ := Top5Inv_foldl (pre.map (scanCand ops buf freqRes))
  rw [hbridge] at hx hp
  rw [← scanCand_magnitudes ops buf freqRes pre] at hx
  exact absurd (hd x hx p hp) (not_le.mpr hlt)

/-- Witness for C6 (amended): the prefix `[1, 2]` of the scanned index
list `1 … 511`, with a concrete oracle; the theorem yields the bound and
sortedness of the held peak list there. -/
theorem peak_scan_top5_witness :
    (List.range' 1 (DEFAULT_SAMPLE_COUNT / 2 - 1) = [1, 2] ++ List.range' 3 509) ∧
    ([1, 2].foldl (scanStep ceOps [] (1 : ℚ)) scanInit).peaks.length ≤ 5 ∧
    List.Sorted peakGE ([1, 2].foldl (scanStep ceOps [] (1 : ℚ)) scanInit).peaks := by
  have hpre : List.range' 1 (DEFAULT_SAMPLE_COUNT / 2 - 1) =
      [1, 2] ++ List.range' 3 509 := rfl
  have h := peak_scan_top5 ceOps [] (1 : ℚ) [1, 2] (List.range' 3 509) hpre
  exact ⟨hpre, h.2.1, h.2.2.1⟩

end LaunchMonitor
